import Mathlib

/-!
# Verification of the NanoClaw orchestration kernel

A shallow embedding, in Lean 4, of the parts of the NanoClaw router
(`src/index.ts`, `src/config.ts`, the KB ingestion pipeline and the KB
search module) that the specification's claims are about, together with
theorems settling each claim.

Conventions used throughout:
* JavaScript strings are modelled as `String` or, where character-level
  reasoning is needed (regex semantics), as `List Char`.
* JavaScript `undefined`/missing object fields are modelled as `Option`;
  JS truthiness of a string field (`data.x && …`) is modelled by
  `truthyStr` (absent or empty string is falsy).
* Asynchronous effects (message sends, file deletions) are modelled as
  explicit result values; the single-threaded poll loops are modelled as
  folds over the list of items of one poll iteration.
* Helper modules of the repository that are not part of the sources
  (`kb/storage.ts`, `kb/embeddings.ts`, `kb/dedupe.ts`, `kb/quality.ts`,
  `kb/chunking.ts`) are abstracted as explicit function parameters, or,
  where their behaviour decides a claim, defined from the specification
  text and marked `Modelled from the spec:` in their doc comment.
-/

namespace NanoClaw

/-- JS truthiness of an optional string field: `undefined` and `''` are falsy. -/
def truthyStr : Option String → Bool
  | none => false
  | some s => !s.isEmpty

/-! ## Trigger matching (`buildTriggerPattern` / `processMessage`)

`buildTriggerPattern` (src/index.ts:202-208) strips a leading `@` from the
group's trigger, regex-escapes the remaining name, and builds the pattern
`^@<name>\b` with the `i` flag.  `processMessage` (src/index.ts:249-259)
tests this pattern against `msg.content.trim()`; the main group skips the
test.  Since the name is regex-escaped, the pattern matches literally:
the trimmed content must start, case-insensitively, with `@` followed by
the name, followed by a word boundary.  We model exactly that. -/

/-- JS regex word character (`\w`): ASCII letter, digit or underscore. -/
def isWordChar (c : Char) : Bool :=
  c.isAlpha || c.isDigit || c == '_'

/-- ASCII-case-insensitive character equality (the `i` regex flag on ASCII). -/
def ciEq (a b : Char) : Bool :=
  a.toLower == b.toLower

/-- Case-insensitive: does `s` start with the literal pattern `pat`? -/
def ciIsStart : List Char → List Char → Bool
  | [], _ => true
  | _ :: _, [] => false
  | p :: ps, c :: cs => ciEq p c && ciIsStart ps cs

/-- Is position `n` of `s` (0-based) a word character?  Out-of-range
positions (end of string) count as non-word, as in JS regex `\b`. -/
def wordCharAt (s : List Char) (n : Nat) : Bool :=
  match s.get? n with
  | some c => isWordChar c
  | none => false

/-- Semantics of the anchored regex `^<pat>\b` (with `pat` a literal,
case-insensitively) on the string `s`: `s` starts with `pat`, and a word
boundary holds right after it, i.e. the last pattern character and the
following character of `s` differ in word-character-ness. -/
def matchStartWordBound (pat s : List Char) : Bool :=
  match pat.getLast? with
  | none => wordCharAt s 0
  | some last =>
    ciIsStart pat s && (isWordChar last != wordCharAt s pat.length)

/-- Model of `trigger.startsWith('@') ? trigger.slice(1) : trigger`
(src/index.ts:204). -/
def stripAtSign : List Char → List Char
  | '@' :: rest => rest
  | l => l

/-- JS `String.prototype.trim` on ASCII input: drop whitespace from both ends. -/
def trimChars (s : List Char) : List Char :=
  ((s.dropWhile Char.isWhitespace).reverse.dropWhile Char.isWhitespace).reverse

/-- The trigger test the router performs (src/index.ts:206-207, 253-259):
`buildTriggerPattern(trigger).test(content.trim())`, i.e. the pattern
`^@<name>\b` (case-insensitive) where `name` is the trigger with any
leading `@` stripped, applied to the trimmed content. -/
def matchesTriggerCode (trigger content : List Char) : Bool :=
  matchStartWordBound ('@' :: stripAtSign trigger) (trimChars content)

/-- Modelled from the spec's words, for refinement comparison only
(claim C7 states the pattern `^<trigger>\b` on the message content):
the content matches the trigger literally at the start, word-bounded,
case-insensitively. -/
def matchesTriggerSpec (trigger content : List Char) : Bool :=
  matchStartWordBound trigger content

/-- The gate of `processMessage` (src/index.ts:254-259): the main group fires on
every message, any other registered group fires iff the trigger pattern
matches. -/
def firesForGroup (folder : String) (trigger content : List Char) : Bool :=
  folder == "main" || matchesTriggerCode trigger content

/-! ## Container runner interface and `runAgent` (src/index.ts:317-400)

`runContainerAgent` (container-runner.ts, out of scope here) either resolves
with a response `{status, result?, newSessionId?, error?}` or rejects
(e.g. on a container timeout).  `runAgent` mirrors src/index.ts:372-399:
it first persists `newSessionId` whenever the response carries one —
*before* looking at `status` — then returns `"Error: <error>"` for an
`error` status, the result for `ok`, and catches any rejection, turning it
into an `"Error: <message>"` reply as well.  It never throws. -/

/-- Outcome of one container run as seen by `runAgent`. -/
inductive ContainerResult where
  /-- Response `{status:"ok", result?, newSessionId?}`. -/
  | ok (result : Option String) (newSessionId : Option String)
  /-- Response `{status:"error", error, newSessionId?}`. -/
  | errorStatus (error : String) (newSessionId : Option String)
  /-- Case where `runContainerAgent` rejected (e.g. `ContainerTimeout`);
  no response was parsed. -/
  | thrown (msg : String)
deriving DecidableEq

/-- The `folder → session_id` map (`sessions.json`), as an insertion-ordered
association list, matching a JS object keyed by folder. -/
def setSession (sess : List (String × String)) (folder sid : String) :
    List (String × String) :=
  if sess.any (fun p => p.1 == folder) then
    sess.map (fun p => if p.1 == folder then (folder, sid) else p)
  else
    sess ++ [(folder, sid)]

/-- Model of `if (output.newSessionId) { sessions[group.folder] = …; saveJson(…) }`
(src/index.ts:381-384): runs on any response, regardless of status; a JS
falsy (absent or empty) id does not update. -/
def applyNewSession (sess : List (String × String)) (folder : String) :
    Option String → List (String × String)
  | none => sess
  | some sid => if sid.isEmpty then sess else setSession sess folder sid

/-- Model of `runAgent` (src/index.ts:372-399): returns the reply text (`none` when
the run produced no result) and the updated session map.  The session
update happens for `ok` and `error` responses alike; a rejection is caught
and produces an `"Error: <message>"` reply without touching sessions. -/
def runAgentModel (sess : List (String × String)) (folder : String) :
    ContainerResult → Option String × List (String × String)
  | .ok result nsid => (result, applyNewSession sess folder nsid)
  | .errorStatus err nsid => (some ("Error: " ++ err), applyNewSession sess folder nsid)
  | .thrown msg => (some ("Error: " ++ msg), sess)

/-! ## Message loop (src/index.ts:1685-1727) and `processMessage`

The loop takes the batch of new messages, processes them in order, and
after each *successfully completed* `processMessage` advances
`lastTimestamp` to that message's timestamp; an exception escaping
`processMessage` stops the batch (`break`), leaving `lastTimestamp` at the
previous value so the failing message is re-processed first next poll.

Inside `processMessage` (src/index.ts:249-315), however, a failing
container run never raises: `runAgent` catches it (src/index.ts:395-399)
and the error text is sent to the chat as the reply; `sendMessage`
(src/index.ts:402-409) likewise catches transport errors.  We model the
reply construction on top of `runAgentModel` and the batch fold
explicitly. -/

/-- A stored inbound message (src/types.ts `NewMessage`), with the fields
the loop uses. -/
structure Msg where
  id : String
  chat_jid : String
  content : String
  timestamp : String
deriving DecidableEq

/-- Whether `processMessage` for one message completed or raised an
exception that escapes to the loop's `catch` (src/index.ts:1713-1720). -/
inductive StepOutcome where
  | handled
  | raised
deriving DecidableEq

/-- The reply `processMessage` sends (src/index.ts:310-314): if `runAgent`
returned a truthy response, it is prefixed with the assistant name and
sent.  Built on `runAgentModel`, so a failed container run yields a sent
`"<name>: Error: …"` reply — not an exception. -/
def processMessageReply (assistant : String) (sess : List (String × String))
    (folder : String) (cr : ContainerResult) : Option String :=
  match (runAgentModel sess folder cr).1 with
  | none => none
  | some r => if r.isEmpty then none else some (assistant ++ ": " ++ r)

/-- The loop outcome of `processMessage` as a function of the container
run's result: every branch of `runAgent` returns normally (both the
`error` status and a caught rejection are converted into a reply), and
`setTyping`/`sendMessage` swallow their own errors, so the step is
`handled` for every container result. -/
def processMessageOutcome (_cr : ContainerResult) : StepOutcome :=
  .handled

/-- One poll iteration of `startMessageLoop` (src/index.ts:1707-1721):
fold over the batch; on `handled` advance `lastTimestamp` to the message's
timestamp and continue, on `raised` stop (`break`).  Returns the final
`lastTimestamp` and the list of messages that were processed. -/
def processBatch (handle : Msg → StepOutcome) :
    List Msg → String → String × List Msg
  | [], ts => (ts, [])
  | m :: rest, ts =>
    match handle m with
    | .handled =>
      let r := processBatch handle rest m.timestamp
      (r.1, m :: r.2)
    | .raised => (ts, [])

/-- Timestamp of the last element of `l`, or `ts` when `l` is empty. -/
def lastTimestampOf : List Msg → String → String
  | [], ts => ts
  | m :: rest, _ => lastTimestampOf rest m.timestamp

/-! ## KB store records

`kb_sources` / `kb_chunks` rows (src/kb/types.ts), as used by the
ingestion pipeline and the handlers.  An embedding is an abstract vector;
the float maths of the embedding provider is abstracted (see the search
section). -/

/-- The `source_type` union (src/kb/types.ts). -/
inductive SourceType where
  | article | video | pdf | text | tweet | other
deriving DecidableEq

/-- A `kb_sources` row, with the columns the claims are about. -/
structure SourceRec where
  id : String
  group_folder : String
  url : Option String
  title : String
  source_type : SourceType
  content_hash : String
deriving DecidableEq

/-- A `kb_chunks` row.  `embedding` is `none` for a null embedding. -/
structure ChunkRec where
  source_id : String
  chunk_index : Nat
  content : String
  embedding : Option (List Int)
deriving DecidableEq

/-- The KB tables. -/
structure KBState where
  sources : List SourceRec
  chunks : List ChunkRec
deriving DecidableEq

/-- Modelled from the spec: `deleteSource` of kb/storage.ts (not among the
sources; its caller `deleteSource` in the ingestion module passes only a
source id) — "Delete. Removes source and cascades chunks."  Deletes the
row with the given id, whatever group owns it, and its chunks. -/
def deleteSourceModel (st : KBState) (sourceId : String) : KBState :=
  { sources := st.sources.filter (fun s => s.id ≠ sourceId),
    chunks := st.chunks.filter (fun c => c.source_id ≠ sourceId) }

/-! ## IPC broker (src/index.ts:411-531) and task handlers (src/index.ts:533-1529)

The watcher scans `ipc/<sourceGroup>/{messages,tasks}`; the directory name
is the verified identity (`sourceGroup`), and `isMain` is derived from it.
For each file: parse, dispatch, then `unlinkSync`; if parsing or the
handler throws, the file is instead renamed into
`ipc/errors/<sourceGroup>-<name>`.  We model one file's fate explicitly. -/

/-- What happens to an IPC file after the broker touches it. -/
inductive FileFate where
  | deleted
  | movedToErrors (dest : String)
deriving DecidableEq

/-- A registered group entry (`registered_groups.json` value). -/
structure GroupRec where
  name : String
  folder : String
  trigger : String
deriving DecidableEq

/-- The mutable state the modelled task handlers touch. -/
structure World where
  groups : List (String × GroupRec)
  kb : KBState
deriving DecidableEq

/-- Model of `registeredGroups[jid] = group` (src/index.ts:127-129),
insertion-ordered. -/
def setGroup (groups : List (String × GroupRec)) (jid : String) (g : GroupRec) :
    List (String × GroupRec) :=
  if groups.any (fun p => p.1 == jid) then
    groups.map (fun p => if p.1 == jid then (jid, g) else p)
  else
    groups ++ [(jid, g)]

/-- An IPC task payload: `type` plus the optional fields used by the
handler cases modelled here (src/index.ts:533-574 lists the full field
set; fields consumed only by cases abstracted away are omitted). -/
structure TaskPayload where
  type : String
  jid : Option String := none
  name : Option String := none
  folder : Option String := none
  trigger : Option String := none
  groupFolder : Option String := none
  sourceId : Option String := none
deriving DecidableEq

/-- The `register_group` case (src/index.ts:760-783): only `main` may
register; with any of the four fields missing (or empty, JS truthiness)
the request is logged as invalid and nothing happens.  The group-folder
`mkdirSync` side effect is not modelled. -/
def handleRegisterGroup (w : World) (_sourceGroup : String) (isMain : Bool)
    (p : TaskPayload) : World :=
  if !isMain then w
  else if truthyStr p.jid && truthyStr p.name && truthyStr p.folder &&
          truthyStr p.trigger then
    { w with
      groups := setGroup w.groups (p.jid.getD "")
        { name := p.name.getD "", folder := p.folder.getD "",
          trigger := p.trigger.getD "" } }
  else w

/-- The `kb_delete` case (src/index.ts:1489-1524): the target group
defaults to the source group; a non-main source naming a different target
is blocked; otherwise `deleteKBSource(sourceId)` runs — by source id
alone, with no check that the source belongs to the target group. -/
def handleKbDelete (w : World) (sourceGroup : String) (isMain : Bool)
    (p : TaskPayload) : World :=
  let targetGroup := if truthyStr p.groupFolder then p.groupFolder.getD "" else sourceGroup
  if !isMain && targetGroup ≠ sourceGroup then w
  else
    match p.sourceId with
    | none => w
    | some sid => if sid.isEmpty then w else { w with kb := deleteSourceModel w.kb sid }

/-- The case labels of the `switch (data.type)` in `processTaskIpc`
(src/index.ts:587-1528); anything else hits the `default` case, which
only logs `Unknown IPC task type`. -/
def knownTaskTypes : List String :=
  ["schedule_task", "pause_task", "resume_task", "cancel_task",
   "refresh_groups", "register_group",
   "sugar_add", "sugar_list", "sugar_status", "sugar_run", "sugar_stop",
   "sugar_list_projects", "sugar_add_project", "sugar_init",
   "github_list_issues", "github_create_task_from_issue",
   "github_create_pr", "github_pr_status",
   "kb_list", "kb_search", "kb_update", "kb_add", "kb_delete"]

/-- Model of `processTaskIpc` (src/index.ts:533-1529): dispatch on `data.type`.
The `register_group` and `kb_delete` cases are modelled from the source;
the other recognised cases are abstracted as the parameter `other`
(they do not touch the claims proved here); an unrecognised type falls
through to the `default` case, which has no effect. -/
def processTaskIpcModel
    (other : String → World → String → Bool → TaskPayload → World)
    (w : World) (sourceGroup : String) (isMain : Bool) (p : TaskPayload) : World :=
  if p.type = "register_group" then handleRegisterGroup w sourceGroup isMain p
  else if p.type = "kb_delete" then handleKbDelete w sourceGroup isMain p
  else if knownTaskTypes.contains p.type then other p.type w sourceGroup isMain p
  else w

/-- One `*.json` file in `ipc/<sourceGroup>/tasks/` (src/index.ts:494-523):
`parsed = none` models a `JSON.parse` failure; `run` returning `none`
models the handler throwing.  On either failure the file is renamed to
`ipc/errors/<sourceGroup>-<file>`; otherwise it is deleted. -/
def dispatchTaskFile (sourceGroup file : String) (w : World)
    (parsed : Option TaskPayload) (run : World → TaskPayload → Option World) :
    FileFate × World :=
  match parsed with
  | none => (.movedToErrors (sourceGroup ++ "-" ++ file), w)
  | some p =>
    match run w p with
    | some w' => (.deleted, w')
    | none => (.movedToErrors (sourceGroup ++ "-" ++ file), w)

/-- An IPC message payload (`ipc/<g>/messages/*.json`), fields of
src/index.ts:450. -/
structure MsgPayload where
  type : Option String := none
  chatJid : Option String := none
  text : Option String := none
deriving DecidableEq

/-- The actionability test of src/index.ts:450:
`data.type === 'message' && data.chatJid && data.text`. -/
def msgActionable (p : MsgPayload) : Bool :=
  p.type == some "message" && truthyStr p.chatJid && truthyStr p.text

/-- One `*.json` file in `ipc/<sourceGroup>/messages/` (src/index.ts:446-485):
on parse failure the file is moved to `ipc/errors/<sourceGroup>-<file>`.
A parsed payload is acted on only when actionable *and* authorized
(the target chat's registered group folder equals the source group, or the
source is `main`); in every parsed case the file is then deleted.  Returns
the file's fate and the `(jid, text)` send effect, if any. -/
def dispatchMessageFile (registered : List (String × GroupRec))
    (sourceGroup file assistant : String) (parsed : Option MsgPayload) :
    FileFate × Option (String × String) :=
  match parsed with
  | none => (.movedToErrors (sourceGroup ++ "-" ++ file), none)
  | some p =>
    if msgActionable p then
      let jid := p.chatJid.getD ""
      let authorized := sourceGroup == "main" ||
        (match (registered.find? (fun q => q.1 == jid)) with
         | some q => q.2.folder == sourceGroup
         | none => false)
      (.deleted,
       if authorized then some (jid, assistant ++ ": " ++ p.text.getD "") else none)
    else
      (.deleted, none)

/-! ## KB ingestion pipeline (src/kb/ingest.ts: `ingestUrl`, `ingestUrlInternal`,
`finishIngestion`)

The pipeline's helper modules (`dedupe.ts` normalize/hash/clean,
`quality.ts` validate, `chunking.ts` chunk, `embeddings.ts` batch
embedding) are not among the sources; they are abstracted here as the
fields of `IngestEnv` — plain functions, so the theorems hold for every
instantiation.  The control flow below is translated from the ingestion
module itself, which is in the sources. -/

/-- Result of `validateContent` (src/kb/types.ts `ValidationResult`). -/
structure ValidationRes where
  valid : Bool
  reason : Option String := none
  truncated : Bool := false

/-- The `{title, content}` record returned by an extractor. -/
structure Extracted where
  title : String
  content : String
deriving DecidableEq

/-- The helper functions of the pipeline, abstracted: URL normalization,
content cleaning, quality validation (with the max-length constant of
`quality.ts`), content hashing, chunking, batch embedding (`none` entries
model the provider returning no embedding, e.g. when unavailable),
URL-based source-type detection, and the id `createSource` assigns. -/
structure IngestEnv where
  normalize : String → String
  clean : String → String
  validate : String → SourceType → ValidationRes
  maxContentLength : Nat
  contentHash : String → String
  chunk : String → List String
  embedBatch : List String → List (Option (List Int))
  detect : String → SourceType
  freshId : String

/-- The result record of an ingestion (src/kb/types.ts `IngestResult`). -/
structure IngestRes where
  success : Bool
  source_id : Option String := none
  chunks_count : Option Nat := none
  error : Option String := none
  existingSourceId : Option String := none
  updated : Option Bool := none
deriving DecidableEq

/-- Model of `getSourceByUrl(normalizedUrl)` — called with the URL alone, so the
lookup is not group-scoped. -/
def getSourceByUrl (st : KBState) (u : String) : Option SourceRec :=
  st.sources.find? (fun s => s.url == some u)

/-- Model of `getSourceByHash(contentHash)` — likewise by hash alone. -/
def getSourceByHash (st : KBState) (h : String) : Option SourceRec :=
  st.sources.find? (fun s => s.content_hash == h)

/-- Model of `deleteChunksBySourceId` of the storage module: remove a source's
chunks. -/
def deleteChunksBySourceId (st : KBState) (sid : String) : KBState :=
  { st with chunks := st.chunks.filter (fun c => c.source_id ≠ sid) }

/-- Model of `updateSource` of the storage module, restricted to the tracked
columns: rewrite url, title and content hash of the row with this id. -/
def updateSourceRec (st : KBState) (sid : String) (url : Option String)
    (title : Option String) (h : String) : KBState :=
  { st with
    sources := st.sources.map (fun s =>
      if s.id = sid then
        { s with url := url, title := title.getD s.title, content_hash := h }
      else s) }

/-- Options passed to ingestion (src/kb/types.ts `IngestOptions`). -/
structure IngestOpts where
  groupFolder : String
  title : Option String := none
  sourceType : Option SourceType := none

/-- Model of `finishIngestion` (src/kb/ingest.ts): clean,
validate (truncating at the max length when flagged), hash, reject a
duplicate hash unless updating, create or update the source row, chunk,
embed, and store the chunks.  A chunk is stored **only when its embedding
is present** (`if (emb) { createChunk(…) }`); chunks whose embedding came
back missing are skipped, not stored with a null embedding. -/
def cleanedFinalContent (env : IngestEnv) (content : String)
    (sourceType : SourceType) : String :=
  let cleaned := env.clean content
  if (env.validate cleaned sourceType).truncated then
    cleaned.take env.maxContentLength
  else cleaned

/-- The row `createSource` inserts (id `kb-<ts>-<rand>` abstracted as
`env.freshId`; `title: title || 'Untitled'`). -/
def newSourceRec (env : IngestEnv) (url : Option String)
    (title : Option String) (sourceType : SourceType)
    (groupFolder hsh : String) : SourceRec :=
  { id := env.freshId, group_folder := groupFolder, url := url,
    title := if truthyStr title then title.getD "" else "Untitled",
    source_type := sourceType, content_hash := hsh }

/-- The chunk-storing loop of `finishIngestion`: chunk the content, embed
the batch, and keep row `i` **only when** `embeddings[i]` is present —
the `if (emb) { createChunk(…) }` guard. -/
def storedChunks (env : IngestEnv) (sid finalContent : String) :
    List ChunkRec :=
  let pieces := env.chunk finalContent
  let embs := env.embedBatch pieces
  pieces.enum.filterMap (fun ic =>
    match embs.get? ic.1 with
    | some (some e) =>
      some { source_id := sid, chunk_index := ic.1, content := ic.2,
             embedding := some e : ChunkRec }
    | _ => none)

def finishIngestion (env : IngestEnv) (st : KBState)
    (url : Option String) (title : Option String) (content : String)
    (sourceType : SourceType) (groupFolder : String)
    (existingSource : Option SourceRec) : IngestRes × KBState :=
  if !(env.validate (env.clean content) sourceType).valid then
    ({ success := false,
       error := (env.validate (env.clean content) sourceType).reason }, st)
  else
    let finalContent := cleanedFinalContent env content sourceType
    let hsh := env.contentHash finalContent
    let dup : Option SourceRec :=
      match existingSource with
      | none => getSourceByHash st hsh
      | some _ => none
    match dup with
    | some e =>
      ({ success := false, error := some "Duplicate content (same hash)",
         existingSourceId := some e.id }, st)
    | none =>
      match existingSource with
      | some ex =>
        let st1 := updateSourceRec st ex.id url title hsh
        let newChunks := storedChunks env ex.id finalContent
        ({ success := true, source_id := some ex.id,
           chunks_count := some newChunks.length, updated := some true },
         { st1 with chunks := st1.chunks ++ newChunks })
      | none =>
        let rec0 := newSourceRec env url title sourceType groupFolder hsh
        let newChunks := storedChunks env env.freshId finalContent
        ({ success := true, source_id := some env.freshId,
           chunks_count := some newChunks.length, updated := some false },
         KBState.mk (st.sources ++ [rec0]) (st.chunks ++ newChunks))

/-- Model of `explicitType || detectSourceType(url)`: the caller's source-type
override, else URL-based detection. -/
def resolvedSourceType (env : IngestEnv) (opts : IngestOpts) (url : String) :
    SourceType :=
  match opts.sourceType with
  | some t => t
  | none => env.detect url

/-- The tail of `ingestUrlInternal` after the URL-dedup gate: detect the
source type (caller override first), run the extractor, and finish. -/
def ingestUrlRest (env : IngestEnv)
    (extract : String → SourceType → Option Extracted) (st : KBState)
    (url normalizedUrl : String) (opts : IngestOpts)
    (existingSource : Option SourceRec) : IngestRes × KBState :=
  match extract url (resolvedSourceType env opts url) with
  | none => ({ success := false, error := some "Content extraction failed" }, st)
  | some x =>
    finishIngestion env st (some normalizedUrl) (some x.title) x.content
      (resolvedSourceType env opts url) opts.groupFolder existingSource

/-- Model of `ingestUrlInternal` (src/kb/ingest.ts): normalize the URL; if a
source
with that URL already exists, fail with `URL already ingested` (carrying
the existing id) unless updating, in which case its chunks are deleted and
the pipeline re-runs against the existing source. -/
def ingestUrlInternal (env : IngestEnv)
    (extract : String → SourceType → Option Extracted) (st : KBState)
    (url : String) (opts : IngestOpts) (forceUpdate : Bool) :
    IngestRes × KBState :=
  let nu := env.normalize url
  match getSourceByUrl st nu with
  | some ex =>
    if forceUpdate then
      ingestUrlRest env extract (deleteChunksBySourceId st ex.id) url nu opts (some ex)
    else
      ({ success := false, error := some "URL already ingested",
         existingSourceId := some ex.id }, st)
  | none => ingestUrlRest env extract st url nu opts none

/-- Model of `ingestUrl` (src/kb/ingest.ts): the non-update entry point. -/
def ingestUrlModel (env : IngestEnv)
    (extract : String → SourceType → Option Extracted) (st : KBState)
    (url : String) (opts : IngestOpts) : IngestRes × KBState :=
  ingestUrlInternal env extract st url opts false

/-! ## KB search (src/kb/search.ts `search`)

Cosine similarity over float vectors is abstracted as a parameter
`sim : List Int → List Int → ℚ` (the claims' properties do not depend on
its values); everything else is translated from the search module:
availability gate, query embedding, group scoping, threshold filter,
descending sort, best-per-source dedup, limit. -/

/-- A row of the chunk-join-source query, plus the source's group folder
(the SQL filters on it when a group is given). -/
structure SearchRowRec where
  chunk_id : Nat
  source_id : String
  content : String
  embedding : Option (List Int)
  source_url : Option String
  source_title : Option String
  source_type : SourceType
  group_folder : String
deriving DecidableEq

/-- A search result (src/kb/types.ts `SearchResult`). -/
structure SearchResultRec where
  chunk_id : Nat
  source_id : String
  source_url : Option String
  source_title : Option String
  source_type : SourceType
  content : String
  similarity : ℚ
deriving DecidableEq

/-- Search options with the defaults of src/kb/search.ts
(`limit = 10`, `minSimilarity = 0.7`, `dedupeBySource = true`). -/
structure SearchOpts where
  groupFolder : Option String := none
  limit : Nat := 10
  minSimilarity : ℚ := 7/10
  dedupeBySource : Bool := true

/-- Insert into a similarity-descending list, keeping existing entries
first on ties — the order `sort((a, b) => b.similarity - a.similarity)`
produces. -/
def insertDescBySim (r : SearchResultRec) :
    List SearchResultRec → List SearchResultRec
  | [] => [r]
  | x :: xs =>
    if r.similarity ≤ x.similarity then x :: insertDescBySim r xs
    else r :: x :: xs

/-- Sort by descending similarity. -/
def sortDescBySim (l : List SearchResultRec) : List SearchResultRec :=
  l.foldr insertDescBySim []

/-- One step of the `bestBySource` map construction: keep the stored entry
for the source unless the new result is strictly better
(`!existing || r.similarity > existing.similarity`). -/
def upsertBest (acc : List SearchResultRec) (r : SearchResultRec) :
    List SearchResultRec :=
  if acc.any (fun x => x.source_id == r.source_id) then
    acc.map (fun x =>
      if x.source_id = r.source_id ∧ x.similarity < r.similarity then r else x)
  else acc ++ [r]

/-- The `bestBySource` map of src/kb/search.ts as an insertion-ordered
association list: at most one entry per `source_id`, each the
best-similarity result seen for that source. -/
def dedupeKeepBest (l : List SearchResultRec) : List SearchResultRec :=
  l.foldl upsertBest []

/-- The scoring stage of `search` (src/kb/search.ts): every in-scope chunk
with a stored embedding (the SQL `WHERE embedding IS NOT NULL` plus
optional group filter) is scored against the query embedding, and kept
when at or above the threshold. -/
def scoredResults (q : List Int) (sim : List Int → List Int → ℚ)
    (rows : List SearchRowRec) (opts : SearchOpts) : List SearchResultRec :=
  let inScope := rows.filter (fun r =>
    r.embedding.isSome &&
      (match opts.groupFolder with
       | some g => r.group_folder == g
       | none => true))
  inScope.filterMap (fun r =>
    match r.embedding with
    | none => none
    | some e =>
      let s := sim q e
      if opts.minSimilarity ≤ s then
        some { chunk_id := r.chunk_id, source_id := r.source_id,
               source_url := r.source_url, source_title := r.source_title,
               source_type := r.source_type, content := r.content,
               similarity := s : SearchResultRec }
      else none)

/-- The rest of `search`: the availability/query gates, sort, optional
best-per-source dedup, and the `limit` truncation, applied to the scored
results. -/
def searchModel (avail : Bool) (queryEmb : Option (List Int))
    (sim : List Int → List Int → ℚ) (rows : List SearchRowRec)
    (opts : SearchOpts) : List SearchResultRec :=
  if !avail then []
  else
    match queryEmb with
    | none => []
    | some q =>
      let sorted := sortDescBySim (scoredResults q sim rows opts)
      let finalResults :=
        if opts.dedupeBySource then sortDescBySim (dedupeKeepBest sorted)
        else sorted
      finalResults.take opts.limit

/-! ## External CLI invocation (src/index.ts: `execSyncCmd`, `sugar_add`,
`github_create_pr`)

`execSyncCmd` (src/index.ts:1535-1565) passes a single command **string**
to `execSync`, i.e. to a shell, with a 30 s timeout.  The sugar and
github handlers build that string by interpolating payload text into it
after ad-hoc escaping.  We model an invocation as either a shell string
or an argv vector, and translate the command construction. -/

/-- How an external command is executed. -/
inductive ExecCall where
  /-- A single string handed to a shell (`execSync`). -/
  | shell (cmd : String)
  /-- A file plus argument vector (`execFile`). -/
  | argv (file : String) (args : List String)
deriving DecidableEq

/-- Is this invocation argv-style (no shell interpretation)? -/
def isArgvStyle : ExecCall → Bool
  | .argv _ _ => true
  | .shell _ => false

/-- Global single-character replacement (`s.replace(/<c>/g, <repl>)` for a
one-character pattern): every occurrence of `target` becomes `repl`. -/
def replaceChar (s : String) (target : Char) (repl : List Char) : String :=
  String.mk (s.data.foldr
    (fun c acc => if c = target then repl ++ acc else c :: acc) [])

/-- Model of `title.replace(/"/g, '\\"')` — the only escaping `github_create_pr`
applies to the payload title and body. -/
def escDoubleQuotes (s : String) : String :=
  replaceChar s '"' ['\\', '"']

/-- The command string `github_create_pr` builds (src/index.ts:1232-1235):
payload `title` and `body` are spliced into the shell string between
double quotes, with only `"` escaped. -/
def githubCreatePrCmd (repo branch : String) (title body : Option String) :
    String :=
  let base := "gh pr create --repo " ++ repo ++ " --base main --head " ++ branch
  let c1 :=
    if truthyStr title then
      base ++ " --title \"" ++ escDoubleQuotes (title.getD "") ++ "\""
    else base
  if truthyStr body then
    c1 ++ " --body \"" ++ escDoubleQuotes (body.getD "") ++ "\""
  else c1 ++ " --fill"

/-- The `github_create_pr` invocation: the built string goes through
`execSyncCmd`, hence through a shell. -/
def githubCreatePrCall (repo branch : String) (title body : Option String) :
    ExecCall :=
  .shell (githubCreatePrCmd repo branch title body)

/-- The escaping `sugar_add` applies to the payload task text
(src/index.ts:818-822): four chained global replacements — `"` to `\"`,
newline to `\n`, `$` to `\$`, and backtick (character 96) to a
backslash-backtick pair; backslash itself is never escaped. -/
def escapeSugarTask (s : String) : String :=
  replaceChar
    (replaceChar (replaceChar (replaceChar s '"' ['\\', '"'])
      '\n' ['\\', 'n']) '$' ['\\', '$'])
    (Char.ofNat 96) ['\\', Char.ofNat 96]

/-- Model of `sugarCmd(args)` (src/index.ts:57-59). -/
def sugarMainCmd (args : String) : String :=
  "PYTHONPATH=/Users/neetidhingra/Github/bhavidhingraa/sugar:$PYTHONPATH python -m sugar.main "
    ++ args

/-- The `typeMapping` table of `sugar_add` (src/index.ts:826-833). -/
def mapTaskType (t : String) : String :=
  if t = "chore" then "feature"
  else if t = "bug" then "bug_fix"
  else if t = "fix" then "bug_fix"
  else if t = "enhancement" then "feature"
  else if t = "docs" then "documentation"
  else if t = "doc" then "documentation"
  else t

/-- The `validTypes` list of `sugar_add` (src/index.ts:825). -/
def validSugarTypes : List String :=
  ["bug_fix", "feature", "test", "refactor", "documentation"]

/-- The command string `sugar_add` builds (src/index.ts:836-838): the
escaped payload task is spliced between double quotes into a `cd … && …`
shell string. -/
def sugarAddCmd (projectPath task : String) (taskType : Option String)
    (priority : Option Nat) : String :=
  let base := "cd \"" ++ projectPath ++ "\" && " ++
    sugarMainCmd ("add \"" ++ escapeSugarTask task ++ "\"")
  let c1 :=
    match taskType with
    | none => base
    | some t =>
      let mapped := mapTaskType t
      if validSugarTypes.contains mapped then base ++ " --type " ++ mapped
      else base
  match priority with
  | none => c1
  | some pr => if pr = 0 then c1 else c1 ++ " --priority " ++ toString pr

/-- The `sugar_add` invocation, also via `execSyncCmd`, hence a shell. -/
def sugarAddCall (projectPath task : String) (taskType : Option String)
    (priority : Option Nat) : ExecCall :=
  .shell (sugarAddCmd projectPath task taskType priority)

/-- The KB dedup invariant of the data model: within one group, no two
sources share a URL (when present) and no two share a content hash. -/
def groupUrlHashUnique (l : List SourceRec) : Prop :=
  l.Pairwise (fun a b => a.group_folder = b.group_folder →
    (a.url = none ∨ a.url ≠ b.url) ∧ a.content_hash ≠ b.content_hash)

/-- A concrete, fully evaluable instantiation of the abstract pipeline
helpers, used to exercise the ingestion theorems on explicit inputs. -/
def sampleEnv : IngestEnv :=
  { normalize := fun u => u, clean := fun c => c,
    validate := fun _ _ => { valid := true }, maxContentLength := 4194304,
    contentHash := fun c => c, chunk := fun c => [c],
    embedBatch := fun pieces => pieces.map (fun _ => some [1]),
    detect := fun _ => .article, freshId := "kb-1-bbb" }

/-- A concrete extractor that succeeds with a fixed title and content. -/
def sampleExtract : String → SourceType → Option Extracted :=
  fun _ _ => some { title := "T", content := "hello" }

/-- Two concrete chunk rows of one source, used to exercise the search
theorem on explicit inputs. -/
def sampleRows : List SearchRowRec :=
  [{ chunk_id := 1, source_id := "kb-1-aaa", content := "alpha",
     embedding := some [1], source_url := none, source_title := some "T",
     source_type := .text, group_folder := "family" },
   { chunk_id := 2, source_id := "kb-1-aaa", content := "beta",
     embedding := some [2], source_url := none, source_title := some "T",
     source_type := .text, group_folder := "family" }]

/-! # Theorems

One theorem (plus, where a claim is refuted, one counterexample, and for
hypotheses a witness) per claim of the specification. -/

/-- Helper: `find?` skips a prefix on which the predicate never fires. -/
theorem find?_append_of_none {α : Type} (p : α → Bool) (l₁ l₂ : List α)
    (h : l₁.find? p = none) : (l₁ ++ l₂).find? p = l₂.find? p := by
  induction l₁ with
  | nil => rfl
  | cons a l ih =>
    cases hpa : p a with
    | true => simp [List.find?, hpa] at h
    | false =>
      simp only [List.find?, hpa] at h
      simp only [List.cons_append, List.find?, hpa]
      exact ih h

/-- C7 counterexample.  The claim states the agent fires iff the content
matches `^<trigger>\b`.  For the registered-group trigger `Alfred`
(no `@` prefix — `register_group` accepts any trigger string) and message
content `Alfred hello`, the content does match `^Alfred\b`, yet the router
does not fire: `buildTriggerPattern` always prepends `@`, producing
`^@Alfred\b`, which fails on this content.
-/
theorem c7_trigger_claim_counterexample :
    matchesTriggerSpec ("Alfred".data) ("Alfred hello".data) = true
    ∧ firesForGroup "family" ("Alfred".data) ("Alfred hello".data) = false := by
  exact ⟨by decide, by decide⟩

/-- C7 (amended).  For every registered non-main group, the agent fires iff
the **trimmed** message content matches `^@<name>\b` case-insensitively,
where `<name>` is the group's trigger with any leading `@` stripped (so
for `@`-prefixed triggers this is exactly `^<trigger>\b` on the trimmed
content, and a leading `@` on the trigger is optional); a mid-word
occurrence of the trigger does not fire; in the `main` group every
message fires regardless of trigger.
-/
theorem c7_trigger_amended (trigger content : List Char) :
    matchesTriggerCode trigger content
      = matchesTriggerCode ('@' :: stripAtSign trigger) content
    ∧ matchesTriggerCode trigger content
      = matchesTriggerSpec ('@' :: stripAtSign trigger) (trimChars content)
    ∧ firesForGroup "main" trigger content = true
    ∧ firesForGroup "family" ("@Alfred".data) ("@AlfredXYZ foo".data) = false
    ∧ firesForGroup "family" ("@Bhavi".data) ("@Bhavi hello".data) = true := by
  refine ⟨?_, ?_, rfl, by decide, by decide⟩
  · simp [matchesTriggerCode, stripAtSign]
  · simp [matchesTriggerCode, matchesTriggerSpec]

/-- C3 counterexample.  The claim states that a container response with
status `error` never changes the stored `folder → session_id` mapping,
even if it carries `newSessionId`.  But `runAgent` persists
`newSessionId` before checking the status: an `error` response carrying
`newSessionId = "s2"` rewrites the (initially empty) mapping.
-/
theorem c3_session_on_error_counterexample :
    (runAgentModel [] "family" (ContainerResult.errorStatus "boom" (some "s2"))).2
      = [("family", "s2")]
    ∧ [("family", "s2")] ≠ ([] : List (String × String)) := by
  exact ⟨by decide, by decide⟩

/-- C3 (amended).  The persisted session id for the group is updated exactly
when the container **response** carries a non-empty `newSessionId`,
regardless of its status (`ok` or `error`); a run that ends in a thrown
failure (e.g. a timeout, which produces no response) never changes the
mapping, and neither does a response without `newSessionId`.
-/
theorem c3_session_amended (sess : List (String × String))
    (folder err sid msg : String) (r : Option String) :
    (runAgentModel sess folder (.thrown msg)).2 = sess
    ∧ (runAgentModel sess folder (.errorStatus err none)).2 = sess
    ∧ (runAgentModel sess folder (.ok r none)).2 = sess
    ∧ (sid.isEmpty = false →
        (runAgentModel sess folder (.errorStatus err (some sid))).2
            = setSession sess folder sid
        ∧ (runAgentModel sess folder (.ok r (some sid))).2
            = setSession sess folder sid) := by
  refine ⟨rfl, rfl, rfl, fun h => ⟨?_, ?_⟩⟩ <;>
    simp [runAgentModel, applyNewSession, h]

/-- Witness for `c3_session_amended` at concrete inputs. -/
theorem c3_session_amended_witness :
    (runAgentModel [("family", "s1")] "family" (.thrown "ContainerTimeout")).2
        = [("family", "s1")]
    ∧ (runAgentModel [("family", "s1")] "family" (.errorStatus "boom" none)).2
        = [("family", "s1")]
    ∧ (runAgentModel [("family", "s1")] "family" (.ok (some "hi") none)).2
        = [("family", "s1")]
    ∧ ((runAgentModel [("family", "s1")] "family" (.errorStatus "boom" (some "s2"))).2
          = setSession [("family", "s1")] "family" "s2"
      ∧ (runAgentModel [("family", "s1")] "family" (.ok (some "hi") (some "s2"))).2
          = setSession [("family", "s1")] "family" "s2") := by
  have h := c3_session_amended [("family", "s1")] "family" "boom" "s2"
    "ContainerTimeout" (some "hi")
  exact ⟨h.1, h.2.1, h.2.2.1, h.2.2.2 (by decide)⟩

/-- C1.  The claim (and the spec's central authorization invariant) says a
`kb_delete` payload deletes a KB source only if that source belongs to
the authorized target group.  The handler checks only the *declared*
target group against the source directory and then deletes by source id
with no ownership check, so a non-main group deletes another group's
source: here source group `family` deletes `kb-1-aaa`, which belongs to
group `work`.  (The neighbouring `kb_update` case does scope its lookup
by group — `getSourceById(sourceId, targetGroup)` — which marks the
missing check in `kb_delete` as a slip.)
-/
theorem c1_kb_delete_cross_group :
    processTaskIpcModel (fun _ w _ _ _ => w)
      (World.mk [("fam@g.us", GroupRec.mk "Family" "family" "@Bhavi")]
        (KBState.mk [SourceRec.mk "kb-1-aaa" "work" none "Doc" .text "h1"]
          [ChunkRec.mk "kb-1-aaa" 0 "c" none]))
      "family" false { type := "kb_delete", sourceId := some "kb-1-aaa" }
    = World.mk [("fam@g.us", GroupRec.mk "Family" "family" "@Bhavi")]
        (KBState.mk [] []) := by
  decide

/-- C4.  The claim (with the spec) says that when the embeddings provider
returns no embedding for a chunk, the chunk is still persisted with a
null embedding.  In `finishIngestion` a chunk is stored only inside
`if (emb) { … }`: with the provider down (every embedding `none`), the
source row is created but **zero** chunks are persisted — the reported
`chunks_count` is 0 and the chunk table stays empty, so there is nothing
for a re-embed pass to backfill.  (The chunk schema's nullable
`embedding` column and the search module's `embedding IS NOT NULL`
filter both expect null-embedding chunks to exist.)
-/
theorem c4_chunks_dropped_when_provider_down :
    ingestUrlModel
      { normalize := fun u => u, clean := fun c => c,
        validate := fun _ _ => { valid := true }, maxContentLength := 4194304,
        contentHash := fun c => c, chunk := fun c => [c],
        embedBatch := fun pieces => pieces.map (fun _ => none),
        detect := fun _ => .article, freshId := "kb-1-aaa" }
      (fun _ _ => some { title := "T", content := "hello world" })
      (KBState.mk [] []) "http://ex.com/a" { groupFolder := "family" }
    = ({ success := true, source_id := some "kb-1-aaa",
         chunks_count := some 0, updated := some false },
       KBState.mk
         [SourceRec.mk "kb-1-aaa" "family" (some "http://ex.com/a") "T"
           .article "hello world"]
         []) := by
  decide

/-- C8.  The claim says external-CLI handlers execute argv-style, with
user-supplied text only ever an argument value.  `execSyncCmd` hands a
single command *string* to `execSync` (a shell), and `github_create_pr`
splices the payload title into that string escaping only `"` — so shell
syntax such as `$(…)` in a title reaches the shell intact; `sugar_add`
likewise builds a shell string around the escaped task text.  (The
bounded 30 s timeout part of the claim does hold.)
-/
theorem c8_shell_interpolation :
    githubCreatePrCall "octo/repo" "dev" (some "$(touch /tmp/pwn)") none
      = ExecCall.shell
          "gh pr create --repo octo/repo --base main --head dev --title \"$(touch /tmp/pwn)\" --fill"
    ∧ isArgvStyle
        (githubCreatePrCall "octo/repo" "dev" (some "$(touch /tmp/pwn)") none)
      = false
    ∧ isArgvStyle (sugarAddCall "/p" "fix bug" none none) = false := by
  refine ⟨?_, rfl, rfl⟩
  decide

/-- Helper: a batch in which every message is handled is processed to the
end, and `lastTimestamp` ends at the final message's timestamp. -/
theorem processBatch_all_handled (handle : Msg → StepOutcome) (l : List Msg)
    (ts : String) (h : ∀ x ∈ l, handle x = StepOutcome.handled) :
    processBatch handle l ts = (lastTimestampOf l ts, l) := by
  induction l generalizing ts with
  | nil => rfl
  | cons m rest ih =>
    have hm : handle m = StepOutcome.handled := h m (by simp)
    simp only [processBatch, hm, lastTimestampOf]
    rw [ih m.timestamp (fun x hx => h x (by simp [hx]))]

/-- Helper: the batch stops at the first raising message, leaving
`lastTimestamp` at the last handled message's timestamp. -/
theorem processBatch_stops (handle : Msg → StepOutcome) (done rest : List Msg)
    (m : Msg) (ts0 : String)
    (hdone : ∀ x ∈ done, handle x = StepOutcome.handled)
    (hm : handle m = StepOutcome.raised) :
    processBatch handle (done ++ m :: rest) ts0
      = (lastTimestampOf done ts0, done) := by
  induction done generalizing ts0 with
  | nil => simp only [List.nil_append, processBatch, hm, lastTimestampOf]
  | cons d ds ih =>
    have hd : handle d = StepOutcome.handled := hdone d (by simp)
    have ih' := ih d.timestamp (fun x hx => hdone x (by simp [hx]))
    simp only [List.cons_append, processBatch, hd, lastTimestampOf,
      List.append_eq] at ih' ⊢
    rw [ih']

/-- C2 counterexample.  The claim says that when the container run for a
message fails (e.g. `ContainerTimeout`), `last_timestamp` remains at its
pre-message value and the message is re-processed.  But `runAgent`
catches the failure and turns it into an `"Error: …"` reply, so
`processMessage` completes normally and the loop advances
`last_timestamp` past the message: starting from `…10:00:00Z`, after the
timed-out `m1` it reads `m1`'s own timestamp `…10:00:01Z`, and the reply
`"bhai: Error: ContainerTimeout"` is sent to the chat.
-/
theorem c2_timeout_advances_counterexample :
    processBatch (fun _ => processMessageOutcome
        (ContainerResult.thrown "ContainerTimeout"))
        [Msg.mk "m1" "fam@g.us" "@Bhavi hi" "2026-02-01T10:00:01Z"]
        "2026-02-01T10:00:00Z"
      = ("2026-02-01T10:00:01Z",
         [Msg.mk "m1" "fam@g.us" "@Bhavi hi" "2026-02-01T10:00:01Z"])
    ∧ ("2026-02-01T10:00:01Z" : String) ≠ "2026-02-01T10:00:00Z"
    ∧ processMessageReply "bhai" [] "family"
        (ContainerResult.thrown "ContainerTimeout")
      = some "bhai: Error: ContainerTimeout" := by
  exact ⟨by decide, by decide, by decide⟩

/-- C2 (amended).  `last_timestamp` advances past a message exactly when
`processMessage` for it completes without an escaping exception.  A
failed container run is converted by `runAgent` into an error reply and
counts as handled (so `last_timestamp` advances past it), and transport
send failures are caught inside `sendMessage`; only an exception that
escapes `processMessage` (e.g. a store error) stops the batch, leaving
`last_timestamp` at the last handled message's timestamp so that the
failing message is the first one re-processed on the next poll.
-/
theorem c2_retry_amended (handle : Msg → StepOutcome) (done rest : List Msg)
    (m : Msg) (ts0 : String)
    (hdone : ∀ x ∈ done, handle x = StepOutcome.handled)
    (hm : handle m = StepOutcome.raised) :
    processBatch handle (done ++ m :: rest) ts0
      = (lastTimestampOf done ts0, done)
    ∧ processBatch handle done ts0 = (lastTimestampOf done ts0, done)
    ∧ (∀ cr : ContainerResult, processMessageOutcome cr = StepOutcome.handled) :=
  ⟨processBatch_stops handle done rest m ts0 hdone hm,
   processBatch_all_handled handle done ts0 hdone,
   fun _ => rfl⟩

/-- Witness for `c2_retry_amended`: a two-message batch whose second
message raises. -/
theorem c2_retry_amended_witness :
    processBatch
        (fun x => if x.id = "m2" then StepOutcome.raised else StepOutcome.handled)
        [Msg.mk "m1" "g@g.us" "@Bhavi a" "t1", Msg.mk "m2" "g@g.us" "@Bhavi b" "t2"]
        "t0"
      = ("t1", [Msg.mk "m1" "g@g.us" "@Bhavi a" "t1"])
    ∧ processBatch
        (fun x => if x.id = "m2" then StepOutcome.raised else StepOutcome.handled)
        [Msg.mk "m1" "g@g.us" "@Bhavi a" "t1"] "t0"
      = ("t1", [Msg.mk "m1" "g@g.us" "@Bhavi a" "t1"])
    ∧ (∀ cr : ContainerResult, processMessageOutcome cr = StepOutcome.handled) :=
  c2_retry_amended
    (fun x => if x.id = "m2" then StepOutcome.raised else StepOutcome.handled)
    [Msg.mk "m1" "g@g.us" "@Bhavi a" "t1"] []
    (Msg.mk "m2" "g@g.us" "@Bhavi b" "t2") "t0" (by decide) (by decide)

/-- C9 counterexample.  The claim says a rejected payload — e.g. a
`register_group` request arriving in `ipc/family/tasks/x.json` — is moved
into `ipc/errors/family-x.json`.  In the code the rejection branch only
logs and returns, so the broker's wrapper reaches `unlinkSync`: the file
is **deleted**, not archived (the `no group added` part does hold — the
world is unchanged).
-/
theorem c9_rejected_register_counterexample :
    dispatchTaskFile "family" "x.json" (World.mk [] (KBState.mk [] []))
        (some { type := "register_group", jid := some "1@g.us",
                name := some "X", folder := some "xgrp", trigger := some "@X" })
        (fun w p => some (processTaskIpcModel (fun _ w' _ _ _ => w') w "family"
          ("family" == "main") p))
      = (FileFate.deleted, World.mk [] (KBState.mk [] []))
    ∧ FileFate.deleted ≠ FileFate.movedToErrors "family-x.json" := by
  exact ⟨by decide, by decide⟩

/-- C9 (amended).  Every handled IPC task file is deleted afterwards, and a
payload is moved into `ipc/errors/<sourceGroup>-<name>` exactly when
parsing or the handler **throws**; an authorization rejection such as a
`register_group` request from a non-main group is logged and dropped
without effect — no group is added — and its file is deleted like any
handled file, not archived.
-/
theorem c9_rejected_register_amended (sourceGroup file : String) (w : World)
    (p : TaskPayload)
    (other : String → World → String → Bool → TaskPayload → World)
    (hsg : sourceGroup ≠ "main") (hty : p.type = "register_group") :
    dispatchTaskFile sourceGroup file w none
        (fun w' p' => some (processTaskIpcModel other w' sourceGroup
          (sourceGroup == "main") p'))
      = (.movedToErrors (sourceGroup ++ "-" ++ file), w)
    ∧ dispatchTaskFile sourceGroup file w (some p)
        (fun w' p' => some (processTaskIpcModel other w' sourceGroup
          (sourceGroup == "main") p'))
      = (.deleted, w) := by
  constructor
  · rfl
  · have hmain : (sourceGroup == "main") = false := beq_eq_false_iff_ne.mpr hsg
    simp [dispatchTaskFile, processTaskIpcModel, hty, handleRegisterGroup, hmain]

/-- Witness for `c9_rejected_register_amended` at a concrete rejected
request. -/
theorem c9_rejected_register_amended_witness :
    dispatchTaskFile "family" "y.json" (World.mk [] (KBState.mk [] [])) none
        (fun w' p' => some (processTaskIpcModel (fun _ w'' _ _ _ => w'') w'
          "family" ("family" == "main") p'))
      = (.movedToErrors ("family" ++ "-" ++ "y.json"), World.mk [] (KBState.mk [] []))
    ∧ dispatchTaskFile "family" "y.json" (World.mk [] (KBState.mk [] []))
        (some { type := "register_group", jid := some "2@g.us",
                name := some "Y", folder := some "ygrp", trigger := some "@Y" })
        (fun w' p' => some (processTaskIpcModel (fun _ w'' _ _ _ => w'') w'
          "family" ("family" == "main") p'))
      = (.deleted, World.mk [] (KBState.mk [] [])) :=
  c9_rejected_register_amended "family" "y.json" (World.mk [] (KBState.mk [] []))
    { type := "register_group", jid := some "2@g.us", name := some "Y",
      folder := some "ygrp", trigger := some "@Y" }
    (fun _ w'' _ _ _ => w'') (by decide) rfl

/-- C10.  A parsed but non-actionable IPC payload causes no effect and its
file is deleted, not archived: a messages-directory payload that is not
`{type:"message"}` with truthy `chatJid` and `text` is skipped and the
file unlinked; a tasks-directory payload with an unrecognised `type`
falls into the handler's `default` case (log only) and the file is
unlinked; archiving to `ipc/errors/<sourceGroup>-<name>` happens exactly
when parsing (or a handler) throws.
-/
theorem c10_nonactionable_cleanup (reg : List (String × GroupRec))
    (sourceGroup file assistant : String) (p : MsgPayload) (tp : TaskPayload)
    (w : World) (other : String → World → String → Bool → TaskPayload → World)
    (hp : msgActionable p = false)
    (ht : knownTaskTypes.contains tp.type = false) :
    dispatchMessageFile reg sourceGroup file assistant none
      = (.movedToErrors (sourceGroup ++ "-" ++ file), none)
    ∧ dispatchMessageFile reg sourceGroup file assistant (some p)
      = (.deleted, none)
    ∧ processTaskIpcModel other w sourceGroup (sourceGroup == "main") tp = w
    ∧ dispatchTaskFile sourceGroup file w (some tp)
        (fun w' p' => some (processTaskIpcModel other w' sourceGroup
          (sourceGroup == "main") p'))
      = (.deleted, w) := by
  have h1 : tp.type ≠ "register_group" := by
    intro h; rw [h] at ht; exact absurd ht (by decide)
  have h2 : tp.type ≠ "kb_delete" := by
    intro h; rw [h] at ht; exact absurd ht (by decide)
  have ht' : ¬ tp.type ∈ knownTaskTypes := by simpa using ht
  have h3 : processTaskIpcModel other w sourceGroup (sourceGroup == "main") tp
      = w := by
    simp [processTaskIpcModel, h1, h2, ht']
  refine ⟨rfl, ?_, h3, ?_⟩
  · simp [dispatchMessageFile, hp]
  · simp [dispatchTaskFile, h3]

/-- Witness for `c10_nonactionable_cleanup`: a messages payload missing
`chatJid` and a tasks payload of unknown type `bogus_type`. -/
theorem c10_nonactionable_cleanup_witness :
    dispatchMessageFile [] "family" "z.json" "Alfred" none
      = (.movedToErrors ("family" ++ "-" ++ "z.json"), none)
    ∧ dispatchMessageFile [] "family" "z.json" "Alfred"
        (some { type := some "message", chatJid := none, text := some "hi" })
      = (.deleted, none)
    ∧ processTaskIpcModel (fun _ w' _ _ _ => w')
        (World.mk [] (KBState.mk [] [])) "family" ("family" == "main")
        { type := "bogus_type" }
      = World.mk [] (KBState.mk [] [])
    ∧ dispatchTaskFile "family" "z.json" (World.mk [] (KBState.mk [] []))
        (some { type := "bogus_type" })
        (fun w' p' => some (processTaskIpcModel (fun _ w'' _ _ _ => w'') w'
          "family" ("family" == "main") p'))
      = (.deleted, World.mk [] (KBState.mk [] [])) :=
  c10_nonactionable_cleanup [] "family" "z.json" "Alfred"
    { type := some "message", chatJid := none, text := some "hi" }
    { type := "bogus_type" } (World.mk [] (KBState.mk [] []))
    (fun _ w'' _ _ _ => w'') (by decide) (by decide)

/-- Helper: ingesting a URL whose normalized form is already present (and
not updating) fails with `URL already ingested`, carrying the existing
source's id, and leaves the store unchanged. -/
theorem ingestUrlModel_found (env : IngestEnv)
    (extract : String → SourceType → Option Extracted) (st : KBState)
    (url : String) (opts : IngestOpts) (ex : SourceRec)
    (hfind : getSourceByUrl st (env.normalize url) = some ex) :
    ingestUrlModel env extract st url opts
      = ({ success := false, error := some "URL already ingested",
           existingSourceId := some ex.id }, st) := by
  simp only [ingestUrlModel, ingestUrlInternal, hfind]
  rfl

/-- Helper: a successful (non-update) URL ingestion happens only when no
source with the normalized URL nor with the content hash existed, and it
appends exactly one source row (with the fresh id and the normalized URL)
plus the embedded chunks. -/
theorem ingest_success_shape (env : IngestEnv)
    (extract : String → SourceType → Option Extracted) (st : KBState)
    (url : String) (opts : IngestOpts)
    (h : (ingestUrlModel env extract st url opts).1.success = true) :
    ∃ x : Extracted,
      getSourceByUrl st (env.normalize url) = none
      ∧ extract url (resolvedSourceType env opts url) = some x
      ∧ getSourceByHash st (env.contentHash (cleanedFinalContent env
          x.content (resolvedSourceType env opts url))) = none
      ∧ ingestUrlModel env extract st url opts
          = ({ success := true, source_id := some env.freshId,
               chunks_count := some (storedChunks env env.freshId
                 (cleanedFinalContent env x.content
                   (resolvedSourceType env opts url))).length,
               updated := some false },
             KBState.mk
               (st.sources ++ [newSourceRec env (some (env.normalize url))
                 (some x.title) (resolvedSourceType env opts url)
                 opts.groupFolder
                 (env.contentHash (cleanedFinalContent env x.content
                   (resolvedSourceType env opts url)))])
               (st.chunks ++ storedChunks env env.freshId
                 (cleanedFinalContent env x.content
                   (resolvedSourceType env opts url)))) := by
  cases hfind : getSourceByUrl st (env.normalize url) with
  | some ex =>
    rw [ingestUrlModel_found env extract st url opts ex hfind] at h
    simp at h
  | none =>
    have hmodel : ingestUrlModel env extract st url opts
        = ingestUrlRest env extract st url (env.normalize url) opts none := by
      simp only [ingestUrlModel, ingestUrlInternal, hfind]
    rw [hmodel] at h ⊢
    cases hext : extract url (resolvedSourceType env opts url) with
    | none =>
      simp only [ingestUrlRest, hext] at h
      simp at h
    | some x =>
      cases hv : (env.validate (env.clean x.content)
          (resolvedSourceType env opts url)).valid with
      | false =>
        simp only [ingestUrlRest, hext, finishIngestion, hv] at h
        simp at h
      | true =>
        cases hdup : getSourceByHash st (env.contentHash
            (cleanedFinalContent env x.content
              (resolvedSourceType env opts url))) with
        | some e =>
          simp only [ingestUrlRest, hext, finishIngestion, hv, hdup] at h
          simp at h
        | none =>
          refine ⟨x, rfl, rfl, hdup, ?_⟩
          simp [ingestUrlRest, hext, finishIngestion, hv, hdup]

/-- Helper: a (non-update) URL ingestion preserves the per-group
URL/content-hash uniqueness invariant: a new source row is only added
after both global dedup gates found nothing. -/
theorem ingest_preserves_unique (env : IngestEnv)
    (extract : String → SourceType → Option Extracted) (st : KBState)
    (url : String) (opts : IngestOpts)
    (hu : groupUrlHashUnique st.sources) :
    groupUrlHashUnique (ingestUrlModel env extract st url opts).2.sources := by
  cases hfind : getSourceByUrl st (env.normalize url) with
  | some ex =>
    rw [ingestUrlModel_found env extract st url opts ex hfind]
    exact hu
  | none =>
    have hmodel : ingestUrlModel env extract st url opts
        = ingestUrlRest env extract st url (env.normalize url) opts none := by
      simp only [ingestUrlModel, ingestUrlInternal, hfind]
    rw [hmodel]
    cases hext : extract url (resolvedSourceType env opts url) with
    | none => simpa only [ingestUrlRest, hext] using hu
    | some x =>
      cases hv : (env.validate (env.clean x.content)
          (resolvedSourceType env opts url)).valid with
      | false => simpa only [ingestUrlRest, hext, finishIngestion, hv] using hu
      | true =>
        cases hdup : getSourceByHash st (env.contentHash
            (cleanedFinalContent env x.content
              (resolvedSourceType env opts url))) with
        | some e =>
          simpa only [ingestUrlRest, hext, finishIngestion, hv, hdup] using hu
        | none =>
          simp only [ingestUrlRest, hext, finishIngestion, hv, hdup,
            Bool.not_true, Bool.false_eq_true, if_false]
          unfold groupUrlHashUnique at hu ⊢
          rw [List.pairwise_append]
          refine ⟨hu, List.pairwise_singleton _ _, ?_⟩
          intro a ha b hb
          rw [List.mem_singleton] at hb
          subst hb
          intro _
          unfold getSourceByUrl at hfind
          unfold getSourceByHash at hdup
          have hurl := List.find?_eq_none.mp hfind a ha
          have hhash := List.find?_eq_none.mp hdup a ha
          constructor
          · right
            intro hcontra
            apply hurl
            rw [hcontra]
            simp [newSourceRec]
          · intro hcontra
            apply hhash
            rw [hcontra]
            simp [newSourceRec]

/-- C5.  KB ingestion is idempotent on URL: after a successful ingestion of a
URL into a group, ingesting the same URL again returns a failure
`URL already ingested` carrying the first ingestion's source id, creates
no second source and leaves the store untouched; and any (non-update)
ingestion preserves the uniqueness of `(group_folder, url)` and
`(group_folder, content_hash)` across sources (the code's dedup gates are
in fact global, which implies the per-group claim).
-/
theorem c5_url_ingest_idempotent (env : IngestEnv)
    (extract : String → SourceType → Option Extracted) (st : KBState)
    (url : String) (opts : IngestOpts)
    (hsucc : (ingestUrlModel env extract st url opts).1.success = true) :
    ingestUrlModel env extract (ingestUrlModel env extract st url opts).2
        url opts
      = ({ success := false, error := some "URL already ingested",
           existingSourceId :=
             (ingestUrlModel env extract st url opts).1.source_id },
         (ingestUrlModel env extract st url opts).2)
    ∧ (∀ st' : KBState, groupUrlHashUnique st'.sources →
        groupUrlHashUnique
          (ingestUrlModel env extract st' url opts).2.sources) := by
  obtain ⟨x, hfind, hext, hdup, heq⟩ :=
    ingest_success_shape env extract st url opts hsucc
  refine ⟨?_, fun st' hu => ingest_preserves_unique env extract st' url opts hu⟩
  rw [heq]
  have hfind2 : getSourceByUrl
      (KBState.mk
        (st.sources ++ [newSourceRec env (some (env.normalize url))
          (some x.title) (resolvedSourceType env opts url) opts.groupFolder
          (env.contentHash (cleanedFinalContent env x.content
            (resolvedSourceType env opts url)))])
        (st.chunks ++ storedChunks env env.freshId
          (cleanedFinalContent env x.content
            (resolvedSourceType env opts url))))
      (env.normalize url)
    = some (newSourceRec env (some (env.normalize url)) (some x.title)
        (resolvedSourceType env opts url) opts.groupFolder
        (env.contentHash (cleanedFinalContent env x.content
          (resolvedSourceType env opts url)))) := by
    unfold getSourceByUrl at hfind ⊢
    rw [find?_append_of_none _ _ _ hfind]
    simp [List.find?, newSourceRec]
  rw [ingestUrlModel_found env extract _ url opts _ hfind2]
  simp [newSourceRec]

/-- Witness for `c5_url_ingest_idempotent` on a concrete store, URL and
pipeline instantiation. -/
theorem c5_url_ingest_idempotent_witness :
    ingestUrlModel sampleEnv sampleExtract
        (ingestUrlModel sampleEnv sampleExtract (KBState.mk [] [])
          "http://ex.com/b" { groupFolder := "family" }).2
        "http://ex.com/b" { groupFolder := "family" }
      = ({ success := false, error := some "URL already ingested",
           existingSourceId :=
             (ingestUrlModel sampleEnv sampleExtract (KBState.mk [] [])
               "http://ex.com/b" { groupFolder := "family" }).1.source_id },
         (ingestUrlModel sampleEnv sampleExtract (KBState.mk [] [])
           "http://ex.com/b" { groupFolder := "family" }).2)
    ∧ groupUrlHashUnique
        (ingestUrlModel sampleEnv sampleExtract (KBState.mk [] [])
          "http://ex.com/b" { groupFolder := "family" }).2.sources :=
  have h := c5_url_ingest_idempotent sampleEnv sampleExtract (KBState.mk [] [])
    "http://ex.com/b" { groupFolder := "family" } (by decide)
  ⟨h.1, h.2 (KBState.mk [] []) List.Pairwise.nil⟩

/-- Helper: membership in the descending insertion. -/
theorem mem_insertDescBySim (r x : SearchResultRec) (l : List SearchResultRec) :
    x ∈ insertDescBySim r l ↔ x = r ∨ x ∈ l := by
  induction l with
  | nil => simp [insertDescBySim]
  | cons a as ih =>
    by_cases hc : r.similarity ≤ a.similarity
    · simp only [insertDescBySim, if_pos hc, List.mem_cons, ih]
      tauto
    · simp only [insertDescBySim, if_neg hc, List.mem_cons]

/-- Helper: inserting into a similarity-descending list keeps it
descending. -/
theorem sorted_insertDescBySim (r : SearchResultRec) (l : List SearchResultRec)
    (h : l.Pairwise (fun a b => b.similarity ≤ a.similarity)) :
    (insertDescBySim r l).Pairwise (fun a b => b.similarity ≤ a.similarity) := by
  induction l with
  | nil => simp [insertDescBySim]
  | cons a as ih =>
    rw [List.pairwise_cons] at h
    by_cases hc : r.similarity ≤ a.similarity
    · simp only [insertDescBySim, if_pos hc]
      rw [List.pairwise_cons]
      refine ⟨?_, ih h.2⟩
      intro b hb
      rcases (mem_insertDescBySim r b as).mp hb with hb | hb
      · exact hb ▸ hc
      · exact h.1 b hb
    · simp only [insertDescBySim, if_neg hc]
      rw [List.pairwise_cons]
      refine ⟨?_, List.pairwise_cons.mpr h⟩
      intro b hb
      rcases List.mem_cons.mp hb with hb | hb
      · exact hb ▸ le_of_not_le hc
      · exact le_trans (h.1 b hb) (le_of_not_le hc)

/-- Helper: the descending sort is a permutation of its input. -/
theorem perm_sortDescBySim (l : List SearchResultRec) :
    List.Perm (sortDescBySim l) l := by
  induction l with
  | nil => rfl
  | cons a as ih =>
    have hins : List.Perm (insertDescBySim a (sortDescBySim as))
        (a :: sortDescBySim as) := by
      clear ih
      induction sortDescBySim as with
      | nil => rfl
      | cons b bs ihb =>
        by_cases hc : a.similarity ≤ b.similarity
        · simp only [insertDescBySim, if_pos hc]
          exact List.Perm.trans (List.Perm.cons b ihb) (List.Perm.swap a b bs)
        · simp only [insertDescBySim, if_neg hc]
          exact List.Perm.refl _
    exact List.Perm.trans hins (List.Perm.cons a ih)

/-- Helper: membership in the descending sort. -/
theorem mem_sortDescBySim (x : SearchResultRec) (l : List SearchResultRec) :
    x ∈ sortDescBySim l ↔ x ∈ l :=
  (perm_sortDescBySim l).mem_iff

/-- Helper: the descending sort is similarity-descending. -/
theorem sorted_sortDescBySim (l : List SearchResultRec) :
    (sortDescBySim l).Pairwise (fun a b => b.similarity ≤ a.similarity) := by
  induction l with
  | nil => exact List.Pairwise.nil
  | cons a as ih => exact sorted_insertDescBySim a (sortDescBySim as) ih

/-- Helper: the `bestBySource` fold returns only seen results, at most one
per source, and each returned result is maximal (by similarity) among the
seen results of its source. -/
theorem dedupe_foldl_invariant (l : List SearchResultRec) :
    ∀ acc processed : List SearchResultRec,
      (∀ a ∈ acc, a ∈ processed) →
      acc.Pairwise (fun a b => a.source_id ≠ b.source_id) →
      (∀ a ∈ acc, ∀ y ∈ processed,
        y.source_id = a.source_id → y.similarity ≤ a.similarity) →
      (∀ y ∈ processed, ∃ a ∈ acc, a.source_id = y.source_id) →
      (∀ a ∈ l.foldl upsertBest acc, a ∈ processed ++ l)
      ∧ (l.foldl upsertBest acc).Pairwise (fun a b => a.source_id ≠ b.source_id)
      ∧ (∀ a ∈ l.foldl upsertBest acc, ∀ y ∈ processed ++ l,
          y.source_id = a.source_id → y.similarity ≤ a.similarity) := by
  induction l with
  | nil =>
    intro acc processed h1 h2 h3 _
    simp only [List.foldl_nil, List.append_nil]
    exact ⟨h1, h2, h3⟩
  | cons x xs ih =>
    intro acc processed h1 h2 h3 h4
    have hassoc : processed ++ x :: xs = (processed ++ [x]) ++ xs := by simp
    simp only [List.foldl_cons, hassoc]
    by_cases hany : acc.any (fun z => z.source_id == x.source_id) = true
    · -- replace-in-place branch
      have hup : upsertBest acc x = acc.map (fun z =>
          if z.source_id = x.source_id ∧ z.similarity < x.similarity then x
          else z) := by
        simp only [upsertBest, hany, if_true]
      rw [hup]
      refine ih _ (processed ++ [x]) ?_ ?_ ?_ ?_
      · intro a ha
        obtain ⟨z, hz, hfz⟩ := List.mem_map.mp ha
        by_cases hc : z.source_id = x.source_id ∧ z.similarity < x.similarity
        · rw [if_pos hc] at hfz
          exact hfz ▸ List.mem_append.mpr (Or.inr (by simp))
        · rw [if_neg hc] at hfz
          exact hfz ▸ List.mem_append.mpr (Or.inl (h1 z hz))
      · rw [List.pairwise_map]
        refine h2.imp_of_mem ?_
        intro a b _ _ hab
        by_cases hca : a.source_id = x.source_id ∧ a.similarity < x.similarity
        · by_cases hcb : b.source_id = x.source_id ∧ b.similarity < x.similarity
          · exact absurd (hca.1.trans hcb.1.symm) hab
          · rw [if_pos hca, if_neg hcb, ← hca.1]
            exact hab
        · by_cases hcb : b.source_id = x.source_id ∧ b.similarity < x.similarity
          · rw [if_neg hca, if_pos hcb, ← hcb.1]
            exact hab
          · rw [if_neg hca, if_neg hcb]
            exact hab
      · intro a ha y hy hkey
        obtain ⟨z, hz, hfz⟩ := List.mem_map.mp ha
        rcases List.mem_append.mp hy with hy | hy
        · by_cases hc : z.source_id = x.source_id ∧ z.similarity < x.similarity
          · rw [if_pos hc] at hfz
            subst hfz
            have : y.similarity ≤ z.similarity :=
              h3 z hz y hy (by rw [hkey, hc.1])
            exact le_trans this (le_of_lt hc.2)
          · rw [if_neg hc] at hfz
            subst hfz
            exact h3 z hz y hy hkey
        · rw [List.mem_singleton] at hy
          subst hy
          by_cases hc : z.source_id = y.source_id ∧ z.similarity < y.similarity
          · rw [if_pos hc] at hfz
            subst hfz
            exact le_refl _
          · rw [if_neg hc] at hfz
            subst hfz
            rcases Decidable.not_and_iff_or_not.mp hc with hc1 | hc2
            · exact absurd hkey.symm hc1
            · exact le_of_not_lt hc2
      · intro y hy
        rcases List.mem_append.mp hy with hy | hy
        · obtain ⟨a, ha, hkey⟩ := h4 y hy
          refine ⟨(fun z => if z.source_id = x.source_id ∧
              z.similarity < x.similarity then x else z) a,
            List.mem_map.mpr ⟨a, ha, rfl⟩, ?_⟩
          by_cases hc : a.source_id = x.source_id ∧ a.similarity < x.similarity
          · simp only [if_pos hc]
            rw [← hc.1]
            exact hkey
          · simp only [if_neg hc]
            exact hkey
        · rw [List.mem_singleton] at hy
          subst hy
          obtain ⟨z, hz, hbz⟩ := List.any_eq_true.mp hany
          have hzy : z.source_id = y.source_id := eq_of_beq hbz
          refine ⟨(fun w => if w.source_id = y.source_id ∧
              w.similarity < y.similarity then y else w) z,
            List.mem_map.mpr ⟨z, hz, rfl⟩, ?_⟩
          by_cases hc : z.source_id = y.source_id ∧ z.similarity < y.similarity
          · simp [if_pos hc]
          · simp only [if_neg hc]
            exact hzy
    · -- append branch
      have hnone : ∀ z ∈ acc, z.source_id ≠ x.source_id := by
        intro z hz hcontra
        exact hany (List.any_eq_true.mpr ⟨z, hz, beq_iff_eq.mpr hcontra⟩)
      have hup : upsertBest acc x = acc ++ [x] := by
        simp only [upsertBest, if_neg hany]
      rw [hup]
      refine ih _ (processed ++ [x]) ?_ ?_ ?_ ?_
      · intro a ha
        rcases List.mem_append.mp ha with ha | ha
        · exact List.mem_append.mpr (Or.inl (h1 a ha))
        · exact List.mem_append.mpr (Or.inr ha)
      · rw [List.pairwise_append]
        exact ⟨h2, List.pairwise_singleton _ _,
          fun a ha b hb => (List.mem_singleton.mp hb) ▸ hnone a ha⟩
      · intro a ha y hy hkey
        rcases List.mem_append.mp ha with ha1 | ha1
        · rcases List.mem_append.mp hy with hy1 | hy1
          · exact h3 a ha1 y hy1 hkey
          · rw [List.mem_singleton] at hy1
            subst hy1
            exact absurd hkey.symm (hnone a ha1)
        · rw [List.mem_singleton] at ha1
          subst ha1
          rcases List.mem_append.mp hy with hy1 | hy1
          · obtain ⟨b, hb, hbkey⟩ := h4 y hy1
            exact absurd (hbkey.trans hkey) (hnone b hb)
          · rw [List.mem_singleton] at hy1
            subst hy1
            exact le_refl _
      · intro y hy
        rcases List.mem_append.mp hy with hy | hy
        · obtain ⟨a, ha, hkey⟩ := h4 y hy
          exact ⟨a, List.mem_append.mpr (Or.inl ha), hkey⟩
        · rw [List.mem_singleton] at hy
          subst hy
          exact ⟨y, List.mem_append.mpr (Or.inr (by simp)), rfl⟩

/-- Helper: the three `bestBySource` properties, for the whole fold. -/
theorem dedupeKeepBest_props (l : List SearchResultRec) :
    (∀ a ∈ dedupeKeepBest l, a ∈ l)
    ∧ (dedupeKeepBest l).Pairwise (fun a b => a.source_id ≠ b.source_id)
    ∧ (∀ a ∈ dedupeKeepBest l, ∀ y ∈ l,
        y.source_id = a.source_id → y.similarity ≤ a.similarity) := by
  have h := dedupe_foldl_invariant l [] []
    (by intro a ha; cases ha) List.Pairwise.nil
    (by intro a ha; cases ha) (by intro y hy; cases hy)
  simpa only [dedupeKeepBest, List.nil_append] using h

/-- Helper: every scored result is at or above the threshold. -/
theorem scored_ge_min (q : List Int) (sim : List Int → List Int → ℚ)
    (rows : List SearchRowRec) (opts : SearchOpts) (r : SearchResultRec)
    (hr : r ∈ scoredResults q sim rows opts) :
    opts.minSimilarity ≤ r.similarity := by
  simp only [scoredResults, List.mem_filterMap] at hr
  obtain ⟨a, _, hfa⟩ := hr
  cases hemb : a.embedding with
  | none => rw [hemb] at hfa; cases hfa
  | some e =>
    rw [hemb] at hfa
    simp only at hfa
    by_cases hle : opts.minSimilarity ≤ sim q e
    · rw [if_pos hle] at hfa
      cases hfa
      exact hle
    · rw [if_neg hle] at hfa
      cases hfa

/-- C6.  Every KB search result list satisfies: empty when the embeddings
provider is unavailable (or the query embedding fails); every result has
similarity at or above `min_similarity` (default `0.7` per `SearchOpts`);
results are sorted in descending similarity; the list has at most `limit`
entries; and with `dedupe_by_source` set, at most one result per
`source_id` is returned, and it carries the highest similarity among all
scored chunks of that source.
-/
theorem c6_search_properties (avail : Bool) (queryEmb : Option (List Int))
    (sim : List Int → List Int → ℚ) (rows : List SearchRowRec)
    (opts : SearchOpts) :
    (avail = false → searchModel avail queryEmb sim rows opts = [])
    ∧ (queryEmb = none → searchModel avail queryEmb sim rows opts = [])
    ∧ (∀ r ∈ searchModel avail queryEmb sim rows opts,
        opts.minSimilarity ≤ r.similarity)
    ∧ (searchModel avail queryEmb sim rows opts).Pairwise
        (fun a b => b.similarity ≤ a.similarity)
    ∧ (searchModel avail queryEmb sim rows opts).length ≤ opts.limit
    ∧ (opts.dedupeBySource = true →
        (searchModel avail queryEmb sim rows opts).Pairwise
          (fun a b => a.source_id ≠ b.source_id))
    ∧ (∀ q : List Int, queryEmb = some q → opts.dedupeBySource = true →
        ∀ r ∈ searchModel avail queryEmb sim rows opts,
          ∀ x ∈ scoredResults q sim rows opts,
            x.source_id = r.source_id → x.similarity ≤ r.similarity) := by
  cases avail with
  | false =>
    refine ⟨fun _ => rfl, fun _ => rfl, ?_, ?_, ?_, ?_, ?_⟩ <;>
      simp [searchModel]

  | true =>
    cases queryEmb with
    | none =>
      refine ⟨fun h => Bool.noConfusion h, fun _ => rfl, ?_, ?_, ?_, ?_, ?_⟩ <;>
        simp [searchModel]
    | some q =>
      have hmodel : searchModel true (some q) sim rows opts
          = (if opts.dedupeBySource then
              sortDescBySim (dedupeKeepBest
                (sortDescBySim (scoredResults q sim rows opts)))
             else sortDescBySim (scoredResults q sim rows opts)).take
            opts.limit := rfl
      have hmemfinal : ∀ r ∈ searchModel true (some q) sim rows opts,
          r ∈ scoredResults q sim rows opts := by
        intro r hr
        rw [hmodel] at hr
        have hr' := List.mem_of_mem_take hr
        by_cases hd : opts.dedupeBySource
        · rw [if_pos hd, mem_sortDescBySim] at hr'
          have := (dedupeKeepBest_props
            (sortDescBySim (scoredResults q sim rows opts))).1 r hr'
          rwa [mem_sortDescBySim] at this
        · rwa [if_neg hd, mem_sortDescBySim] at hr'
      refine ⟨fun h => Bool.noConfusion h, fun h => Option.noConfusion h,
        ?_, ?_, ?_, ?_, ?_⟩
      · intro r hr
        exact scored_ge_min q sim rows opts r (hmemfinal r hr)
      · rw [hmodel]
        refine List.Pairwise.sublist (List.take_sublist _ _) ?_
        by_cases hd : opts.dedupeBySource
        · rw [if_pos hd]; exact sorted_sortDescBySim _
        · rw [if_neg hd]; exact sorted_sortDescBySim _
      · rw [hmodel]
        exact List.length_take_le _ _
      · intro hd
        rw [hmodel, if_pos hd]
        refine List.Pairwise.sublist (List.take_sublist _ _) ?_
        have hkeys := (dedupeKeepBest_props
          (sortDescBySim (scoredResults q sim rows opts))).2.1
        exact ((perm_sortDescBySim _).pairwise_iff
          (by intro a b h hba; exact h hba.symm)).mpr hkeys
      · intro q' hq' hd r hr x hx hkey
        cases hq'
        have hr' : r ∈ dedupeKeepBest
            (sortDescBySim (scoredResults q sim rows opts)) := by
          rw [hmodel, if_pos hd] at hr
          have := List.mem_of_mem_take hr
          rwa [mem_sortDescBySim] at this
        have hbest := (dedupeKeepBest_props
          (sortDescBySim (scoredResults q sim rows opts))).2.2 r hr' x
          ((mem_sortDescBySim x _).mpr hx) hkey
        exact hbest

/-- Witness for `c6_search_properties` on concrete inputs (unavailable
provider, and a two-chunk one-source store with the default options). -/
theorem c6_search_properties_witness :
    searchModel false (some [1]) (fun _ _ => 1) [] {} = []
    ∧ searchModel true none (fun _ _ => 1) sampleRows {} = []
    ∧ (searchModel true (some [1]) (fun _ _ => 1) sampleRows {}).length
        ≤ ({} : SearchOpts).limit
    ∧ (searchModel true (some [1]) (fun _ _ => 1) sampleRows {}).Pairwise
        (fun a b => a.source_id ≠ b.source_id) :=
  ⟨(c6_search_properties false (some [1]) (fun _ _ => 1) [] {}).1 rfl,
   (c6_search_properties true none (fun _ _ => 1) sampleRows {}).2.1 rfl,
   (c6_search_properties true (some [1]) (fun _ _ => 1) sampleRows {}).2.2.2.2.1,
   (c6_search_properties true (some [1]) (fun _ _ => 1) sampleRows {}).2.2.2.2.2.1
     rfl⟩

end NanoClaw
